import Mathlib

/-!
Shallow embedding of the ME-410 multi-motor compression-control firmware
(`src/` of the repository) and proofs about it.

Floating-point values are modelled as rationals (`ℚ`): every operation the
embedded code performs on them is a comparison, an addition, a subtraction,
a multiplication or a division by a constant, all exact at the magnitudes
involved.  Machine integers are modelled as `ℤ`/`ℕ`; none of the embedded
paths can overflow 32 bits.

The file is organised as definitions first (translated from the source
files named in each doc comment), then the theorems about them.
-/

namespace ME410

/-! ## Definitions: PI controller (`src/control/pi_controller.cpp`) -/

/-- `CTRL_FREQ_HZ` from `pi_controller.cpp`. -/
def CTRL_FREQ_HZ : ℚ := 50

/-- `CTRL_DT_S = 1.0f / CTRL_FREQ_HZ` from `pi_controller.cpp`. -/
def CTRL_DT_S : ℚ := 1 / CTRL_FREQ_HZ

/-- `DUTY_MIN` from `pi_controller.cpp`. -/
def DUTY_MIN : ℚ := -100

/-- `DUTY_MAX` from `pi_controller.cpp`. -/
def DUTY_MAX : ℚ := 100

/-- `MIN_RUN` deadband threshold from `pi_controller.cpp`. -/
def MIN_RUN : ℚ := 40

/-- The `0.0001f` epsilon used in the anti-windup clamp denominator. -/
def piEpsilon : ℚ := 1 / 10000

/-- One motor's slice of `controlStepNewtons` (and of the structurally
identical `controlStep`): error, integrator update, anti-windup clamp,
PI output, saturation, deadband.  Returns the stored integrator and the
emitted command (`duty_out[i]` = `last_duty[i]`). -/
def piMotorStep (Kp Ki integ sp meas : ℚ) : ℚ × ℚ :=
  let error := sp - meas
  let integ1 := integ + error * CTRL_DT_S
  let integrator_max := DUTY_MAX / max Ki piEpsilon
  let integ2 := if integ1 > integrator_max then integrator_max else integ1
  let integ3 := if integ2 < -integrator_max then -integrator_max else integ2
  let duty0 := Kp * error + Ki * integ3
  let duty1 := if duty0 > DUTY_MAX then DUTY_MAX else duty0
  let duty2 := if duty1 < DUTY_MIN then DUTY_MIN else duty1
  let command :=
    if duty2 ≥ MIN_RUN then duty2
    else if duty2 ≤ -MIN_RUN then duty2
    else 0
  (integ3, command)

/-- One motor's slice of the control step with the deadband gate removed:
identical integrator pipeline, but the saturated raw duty is emitted
directly.  Used to compare the deadband-gated step against the ungated one
(claim C5's "what it would be without the deadband gate"). -/
def piMotorStepRaw (Kp Ki integ sp meas : ℚ) : ℚ × ℚ :=
  let error := sp - meas
  let integ1 := integ + error * CTRL_DT_S
  let integrator_max := DUTY_MAX / max Ki piEpsilon
  let integ2 := if integ1 > integrator_max then integrator_max else integ1
  let integ3 := if integ2 < -integrator_max then -integrator_max else integ2
  let duty0 := Kp * error + Ki * integ3
  let duty1 := if duty0 > DUTY_MAX then DUTY_MAX else duty0
  let duty2 := if duty1 < DUTY_MIN then DUTY_MIN else duty1
  (integ3, duty2)

/-- Iterating `piMotorStep` for one motor over a list of
(setpoint, measurement) inputs, returning the final stored integrator. -/
def piRun (Kp Ki integ0 : ℚ) : List (ℚ × ℚ) → ℚ
  | [] => integ0
  | (sp, meas) :: rest => piRun Kp Ki (piMotorStep Kp Ki integ0 sp meas).1 rest

/-- The anti-windup bound `DUTY_MAX / max Ki piEpsilon`. -/
def integratorMax (Ki : ℚ) : ℚ := DUTY_MAX / max Ki piEpsilon

/-- The deadband gate applied to a saturated duty, exactly as in the final
`if`-chain of `controlStepNewtons`. -/
def deadband (d : ℚ) : ℚ :=
  if d ≥ MIN_RUN then d else if d ≤ -MIN_RUN then d else 0

/-! ## Definitions: distance classifier and setpoint policy
(`src/sensors/tof_sensor.cpp`) -/

/-- `DistanceRange` from `tof_sensor.h`. -/
inductive DistanceRange
  | unknown
  | far
  | medium
  | close
  | outOfBounds
deriving DecidableEq, Repr

/-- `DISTANCE_CLOSE_MIN` from `tof_sensor.h` (fixed sensor minimum, 50 cm). -/
def DISTANCE_CLOSE_MIN : ℚ := 50

/-- Modelled from the spec: the constant `DISTANCE_MEDIUM_MIN` used by
`getDistanceRange` in `tof_sensor.cpp` is declared nowhere under `src/`;
per the spec's Close/Medium boundary ("Medium below 200" with "Close
boundary below 100") and the code comment "Medium range: 100-200 cm" it
is 100 cm. -/
def DISTANCE_MEDIUM_MIN : ℚ := 100

/-- Modelled from the spec: the constant `DISTANCE_FAR_MIN` used by
`getDistanceRange` in `tof_sensor.cpp` is declared nowhere under `src/`;
per the spec's Medium/Far boundary and the code comment
"Far range: 200-300 cm" it is 200 cm. -/
def DISTANCE_FAR_MIN : ℚ := 200

/-- Modelled from the spec: the constant `DISTANCE_FAR_MAX` used by
`getDistanceRange` in `tof_sensor.cpp` is declared nowhere under `src/`;
per the spec's "Far up to 300" and the code comment "Far range: 200-300 cm"
it is 300 cm. -/
def DISTANCE_FAR_MAX : ℚ := 300

/-- `getDistanceRange` from `tof_sensor.cpp`. -/
def getDistanceRange (distance : ℚ) : DistanceRange :=
  if distance < 0 then .unknown
  else if DISTANCE_FAR_MIN ≤ distance ∧ distance ≤ DISTANCE_FAR_MAX then .far
  else if DISTANCE_MEDIUM_MIN ≤ distance ∧ distance < DISTANCE_FAR_MIN then .medium
  else if DISTANCE_CLOSE_MIN ≤ distance ∧ distance < DISTANCE_MEDIUM_MIN then .close
  else .outOfBounds

/-- `SETPOINT_FAR` from `tof_sensor.h`. -/
def SETPOINT_FAR_N : ℚ := 50

/-- `SETPOINT_MEDIUM` from `tof_sensor.h`. -/
def SETPOINT_MEDIUM_N : ℚ := 75

/-- `SETPOINT_CLOSE` from `tof_sensor.h`. -/
def SETPOINT_CLOSE_N : ℚ := 100

/-- `SECURITY_OFFSET` from `tof_sensor.h`. -/
def SECURITY_OFFSET_N : ℚ := 5

/-- `calculateSetpoint` from `tof_sensor.cpp`. -/
def calculateSetpoint (range : DistanceRange) (baseline_force_n : ℚ) : ℚ :=
  match range with
  | .far =>
      if baseline_force_n > 0 then baseline_force_n + SECURITY_OFFSET_N
      else SETPOINT_FAR_N
  | .medium => SETPOINT_MEDIUM_N
  | .close => SETPOINT_CLOSE_N
  | _ => -1

/-! ## Definitions: published-distance accessors
(`src/sensors/tof_sensor.cpp`) -/

/-- `NUM_MOTORS` from `pins.h`. -/
def NUM_MOTORS : ℤ := 5

/-- `SERVO_MIN_ANGLE` from `servo_config.h`. -/
def SERVO_MIN_ANGLE : ℤ := 5

/-- `getMinDistance` from `tof_sensor.cpp`.  The shared array is the
five-slot `shared_min_distance`; `lock_acquired` is whether
`xSemaphoreTake(distanceMutex, pdMS_TO_TICKS(10))` succeeded within its
bounded wait.  The local `distance` starts at `999.0f` and is only
overwritten by the array slot when the index is in range and the lock is
acquired. -/
def getMinDistance (shared_min_distance : Fin 5 → ℚ) (lock_acquired : Bool)
    (motor_index : ℤ) : ℚ :=
  if h : motor_index < 0 ∨ NUM_MOTORS ≤ motor_index then 999
  else if lock_acquired then
    shared_min_distance ⟨motor_index.toNat, by simp only [NUM_MOTORS] at h; omega⟩
  else 999

/-- `getBestAngle` from `tof_sensor.cpp`, over the five-slot
`shared_best_angle`; the local `angle` starts at `SERVO_MIN_ANGLE`. -/
def getBestAngle (shared_best_angle : Fin 5 → ℤ) (lock_acquired : Bool)
    (motor_index : ℤ) : ℤ :=
  if h : motor_index < 0 ∨ NUM_MOTORS ≤ motor_index then SERVO_MIN_ANGLE
  else if lock_acquired then
    shared_best_angle ⟨motor_index.toNat, by simp only [NUM_MOTORS] at h; omega⟩
  else SERVO_MIN_ANGLE

/-! ## Definitions: per-motor safety state machine and control cycle
(`src/main.cpp`, `loop()`) -/

/-- `SystemState` from `tof_sensor.h`. -/
inductive SystemState
  | normalOperation
  | outOfRangeDeflating
  | outOfRangeReleasing
  | waitingForValidReading
deriving DecidableEq, Repr

/-- `RELEASE_TIME_MS` from `tof_sensor.h`. -/
def RELEASE_TIME_MS : ℕ := 600

/-- `REVERSE_DUTY_PCT` from `tof_sensor.h`. -/
def REVERSE_DUTY_PCT : ℚ := 60

/-- A command handed to the motor driver (`motors.cpp`): `motorForward`,
`motorReverse` (with positive magnitude) or `motorBrake`. -/
inductive MotorAction
  | forward (duty : ℚ)
  | reverse (duty : ℚ)
  | brake
deriving DecidableEq, Repr

/-- How `controlStepNewtons` turns the emitted command into a motor-driver
call at the end of each per-motor iteration. -/
def applyCommand (command : ℚ) : MotorAction :=
  if command > 0 then .forward command
  else if command < 0 then .reverse (-command)
  else .brake

/-- `is_out_of_bounds` computed in `loop()` (`main.cpp`): range is
out-of-bounds or the setpoint is the negative sentinel. -/
def is_out_of_bounds (range : DistanceRange) (setpoint : ℚ) : Bool :=
  decide (range = DistanceRange.outOfBounds) || decide (setpoint < 0)

/-- `is_valid` computed in `loop()` (`main.cpp`). -/
def is_valid (range : DistanceRange) (setpoint : ℚ) : Bool :=
  !(decide (range = DistanceRange.outOfBounds) ||
    decide (range = DistanceRange.unknown) || decide (setpoint < 0))

/-- Per-motor controller/safety state carried across control cycles:
`current_state[i]`, `reverse_start_time[i]`, `duty_cycles[i]` and the PI
`integrators[i]`. -/
structure MotorState where
  state : SystemState
  reverseStart : ℕ
  duty : ℚ
  integ : ℚ
deriving DecidableEq, Repr

/-- Result of one motor's pass through the `switch (current_state[i])`
state machine in `loop()` (`main.cpp`, Step 6): the new state, the new
reverse-start timestamp, the duty written by the state machine, and
`piInput = some (setpoint, pressure)` exactly when the `NORMAL_OPERATION`
branch wrote `temp_setpoints[i]`/`temp_pressures[i]` this cycle. -/
structure SafetyStepOut where
  state : SystemState
  reverseStart : ℕ
  duty : ℚ
  piInput : Option (ℚ × ℚ)
deriving DecidableEq, Repr

/-- The per-motor safety state machine of `loop()` (`main.cpp`,
Step 6), translated case by case. -/
def safetyStep (st : SystemState) (reverseStart : ℕ) (duty : ℚ)
    (range : DistanceRange) (setpoint pressure : ℚ) (current_time : ℕ) :
    SafetyStepOut :=
  match st with
  | .normalOperation =>
      if is_out_of_bounds range setpoint then
        ⟨.outOfRangeDeflating, current_time, -REVERSE_DUTY_PCT, none⟩
      else
        ⟨.normalOperation, reverseStart, duty, some (setpoint, pressure)⟩
  | .outOfRangeDeflating =>
      if is_valid range setpoint then
        ⟨.normalOperation, reverseStart, 0, none⟩
      else if RELEASE_TIME_MS ≤ current_time - reverseStart then
        ⟨.waitingForValidReading, reverseStart, 0, none⟩
      else
        ⟨.outOfRangeDeflating, reverseStart, -REVERSE_DUTY_PCT, none⟩
  | .outOfRangeReleasing =>
      ⟨.waitingForValidReading, reverseStart, 0, none⟩
  | .waitingForValidReading =>
      if is_valid range setpoint then
        ⟨.normalOperation, reverseStart, duty, none⟩
      else
        ⟨.waitingForValidReading, reverseStart, 0, none⟩

/-- Result of one motor's full control cycle. `duty` is `duty_cycles[i]`
after the post-PI override loop; `applied` is the motor-driver command in
force at the end of the cycle (the last one issued for that motor). -/
structure MotorCycleOut where
  state : SystemState
  reverseStart : ℕ
  integ : ℚ
  duty : ℚ
  applied : MotorAction
deriving DecidableEq, Repr

/-- One motor's slice of one control cycle of `loop()` (`main.cpp`,
Steps 6 and the post-PI override): the safety state machine runs first;
then the batch PI call processes every motor — `controlStepNormalized` is
called from `loop()` but is declared nowhere under `src/`, so its
per-motor body is modelled from the spec (§4.3 batch PI step over
normalized 0-100% values), structurally identical to `controlStepNewtons`
in `pi_controller.cpp`; for a motor whose `temp_setpoints[i]` /
`temp_pressures[i]` slots were not written this cycle the C++ reads
uninitialized memory, modelled by the explicit `junkSp`/`junkMeas`
parameters — and finally the override loop re-issues the state's fixed
command for every non-`NORMAL_OPERATION` motor. -/
def motorCycle (Kp Ki : ℚ) (pre : MotorState) (range : DistanceRange)
    (setpoint pressure junkSp junkMeas : ℚ) (current_time : ℕ) :
    MotorCycleOut :=
  let s := safetyStep pre.state pre.reverseStart pre.duty range setpoint
    pressure current_time
  let piIn := match s.piInput with
    | some p => p
    | none => (junkSp, junkMeas)
  let pi := piMotorStep Kp Ki pre.integ piIn.1 piIn.2
  match s.state with
  | .normalOperation =>
      ⟨.normalOperation, s.reverseStart, pi.1, pi.2, applyCommand pi.2⟩
  | .outOfRangeDeflating =>
      ⟨.outOfRangeDeflating, s.reverseStart, pi.1, s.duty,
       .reverse REVERSE_DUTY_PCT⟩
  | .outOfRangeReleasing =>
      ⟨.outOfRangeReleasing, s.reverseStart, pi.1, s.duty,
       .reverse REVERSE_DUTY_PCT⟩
  | .waitingForValidReading =>
      ⟨.waitingForValidReading, s.reverseStart, pi.1, s.duty, .brake⟩

/-- `resetIntegrators` from `pi_controller.cpp`: zeroes `integrators[i]`
and `last_duty[i]` for every motor. -/
def resetIntegrators : Fin 5 → ℚ × ℚ := fun _ => (0, 0)

/-- `initPIController` from `pi_controller.cpp`: the only caller of
`resetIntegrators` anywhere under `src/`. -/
def initPIController : Fin 5 → ℚ × ℚ := resetIntegrators

/-! ## Definitions: runtime tuning setters
(`src/utils/command_handler.cpp`, `src/control/pi_controller.cpp`) -/

/-- The runtime sweep/servo configuration of `command_handler.cpp` that
the SWEEP/SERVO setters touch. -/
structure SweepConfig where
  sweep_enabled : Bool
  servo_min_angle : ℤ
  servo_max_angle : ℤ
  servo_step : ℤ
  servo_manual_angle : ℤ
deriving DecidableEq, Repr

/-- `validateAngle` from `command_handler.cpp`. -/
def validateAngle (angle : ℤ) : Bool :=
  decide (0 ≤ angle) && decide (angle ≤ 180)

/-- `validateSweepRange` from `command_handler.cpp`. -/
def validateSweepRange (lo hi : ℤ) : Bool :=
  decide (0 ≤ lo) && decide (hi ≤ 180) && decide (lo < hi)

/-- `validateStep` from `command_handler.cpp`. -/
def validateStep (step : ℤ) : Bool :=
  decide (1 ≤ step) && decide (step ≤ 20)

/-- The reply sent back over serial: `sendAck` or `sendError`. -/
inductive CmdResponse
  | ack
  | err
deriving DecidableEq, Repr

/-- The `SWEEP:MIN:<n>` branch of `handleSweepCommand`
(`command_handler.cpp`), with the angle already parsed and the config
mutex acquisition modelled by `lockOk`. -/
def handleSweepMin (cfg : SweepConfig) (lockOk : Bool) (angle : ℤ) :
    SweepConfig × CmdResponse :=
  if !validateAngle angle then (cfg, .err)
  else if lockOk then
    if validateSweepRange angle cfg.servo_max_angle then
      ({cfg with servo_min_angle := angle}, .ack)
    else (cfg, .err)
  else (cfg, .err)

/-- The `SWEEP:MAX:<n>` branch of `handleSweepCommand`
(`command_handler.cpp`). -/
def handleSweepMax (cfg : SweepConfig) (lockOk : Bool) (angle : ℤ) :
    SweepConfig × CmdResponse :=
  if !validateAngle angle then (cfg, .err)
  else if lockOk then
    if validateSweepRange cfg.servo_min_angle angle then
      ({cfg with servo_max_angle := angle}, .ack)
    else (cfg, .err)
  else (cfg, .err)

/-- The `SWEEP:STEP:<n>` branch of `handleSweepCommand`
(`command_handler.cpp`). -/
def handleSweepStep (cfg : SweepConfig) (lockOk : Bool) (stepv : ℤ) :
    SweepConfig × CmdResponse :=
  if !validateStep stepv then (cfg, .err)
  else if lockOk then ({cfg with servo_step := stepv}, .ack)
  else (cfg, .err)

/-- The `SERVO:ANGLE:<n>` branch of `handleServoCommand`
(`command_handler.cpp`): validates, then rejects while sweeping, else
stores the manual angle. -/
def handleServoAngle (cfg : SweepConfig) (lockOk : Bool) (angle : ℤ) :
    SweepConfig × CmdResponse :=
  if !validateAngle angle then (cfg, .err)
  else if lockOk then
    if cfg.sweep_enabled then (cfg, .err)
    else ({cfg with servo_manual_angle := angle}, .ack)
  else (cfg, .err)

/-- The `SWEEP:ENABLE` / `SWEEP:DISABLE` branches of `handleSweepCommand`
(`command_handler.cpp`). -/
def handleSweepEnable (cfg : SweepConfig) (lockOk : Bool) (enable : Bool) :
    SweepConfig × CmdResponse :=
  if lockOk then ({cfg with sweep_enabled := enable}, .ack)
  else (cfg, .err)

/-- `setPIGains` from `pi_controller.cpp`: stores the requested gains
unconditionally — no validation, no rejection signal.  Returns the new
`(Kp, Ki)` pair. -/
def setPIGains (kp ki : ℚ) : ℚ × ℚ := (kp, ki)

/-- The `CONTROL_MODE_MILLIVOLTS` default gains `(Kp, Ki)` from
`pi_controller.cpp`. -/
def defaultGains : ℚ × ℚ := (15 / 100, 60 / 100)

/-! ## Definitions: forward servo sweep pass
(`src/sensors/tof_sensor.cpp`, `servoSweepTask`) -/

/-- Sector membership, the `if`/`else if` chain of `servoSweepTask` over
semi-open intervals `[MIN, MAX)` with the last sector closed at its `MAX`.
`bounds k = (SECTOR_MOTOR_(k+1)_MIN, SECTOR_MOTOR_(k+1)_MAX)`; the
five-sector constants referenced by `tof_sensor.cpp`
(`SECTOR_MOTOR_5_MIN`/`MAX` in particular) are declared nowhere under
`src/` — `servo_config.h` declares only four sectors with different
values — so the model is parameterized over the bounds; concrete
instantiations use the values of the `tof_sensor.cpp` comments
(5, 39, 73, 107, 141, 175). -/
def sectorIndex (bounds : Fin 5 → ℤ × ℤ) (angle : ℤ) : Option (Fin 5) :=
  if (bounds 0).1 ≤ angle ∧ angle < (bounds 0).2 then some 0
  else if (bounds 1).1 ≤ angle ∧ angle < (bounds 1).2 then some 1
  else if (bounds 2).1 ≤ angle ∧ angle < (bounds 2).2 then some 2
  else if (bounds 3).1 ≤ angle ∧ angle < (bounds 3).2 then some 3
  else if (bounds 4).1 ≤ angle ∧ angle ≤ (bounds 4).2 then some 4
  else none

/-- The forward-sweep sector-completion chain of `servoSweepTask`:
the first sector (in order 0..4) whose exit condition
`angle ≥ MAX || angle + step_size > MAX` holds and whose
`sector_updated` flag is still clear. -/
def completedSector (bounds : Fin 5 → ℤ × ℤ) (updated : Fin 5 → Bool)
    (angle stepSize : ℤ) : Option (Fin 5) :=
  if ((bounds 0).2 ≤ angle ∨ (bounds 0).2 < angle + stepSize) ∧
      updated 0 = false then some 0
  else if ((bounds 1).2 ≤ angle ∨ (bounds 1).2 < angle + stepSize) ∧
      updated 1 = false then some 1
  else if ((bounds 2).2 ≤ angle ∨ (bounds 2).2 < angle + stepSize) ∧
      updated 2 = false then some 2
  else if ((bounds 3).2 ≤ angle ∨ (bounds 3).2 < angle + stepSize) ∧
      updated 3 = false then some 3
  else if ((bounds 4).2 ≤ angle ∨ (bounds 4).2 < angle + stepSize) ∧
      updated 4 = false then some 4
  else none

/-- The per-pass bookkeeping of the forward sweep in `servoSweepTask`:
`min_distance_sector`, `angle_of_min_sector`, `sector_updated`, plus the
publications into the shared `PublishedDistance` slots made during this
pass (`published k = none` models "slot not written this pass, previous
value preserved") and a count of publish events per sector. -/
structure SweepState where
  minDist : Fin 5 → ℚ
  angOfMin : Fin 5 → ℤ
  updated : Fin 5 → Bool
  published : Fin 5 → Option (ℚ × ℤ)
  pubCount : Fin 5 → ℕ

/-- The pass-local initialization at the top of the forward sweep:
minima at the `999.0f` sentinel, angles of minima at the sector minima,
no sector updated, nothing published yet this pass. -/
def initialSweepState (bounds : Fin 5 → ℤ × ℤ) : SweepState where
  minDist := fun _ => 999
  angOfMin := fun s => (bounds s).1
  updated := fun _ => false
  published := fun _ => none
  pubCount := fun _ => 0

/-- The minimum-tracking update of one loop iteration of the forward
sweep: if the angle belongs to a sector and the sample is valid
(`distance > 0`) and strictly below the sector's running minimum, record
it together with its angle. -/
def minUpdate (bounds : Fin 5 → ℤ × ℤ) (sample : ℤ → ℚ) (st : SweepState)
    (angle : ℤ) : SweepState :=
  match sectorIndex bounds angle with
  | some s =>
      if 0 < sample angle ∧ sample angle < st.minDist s then
        { st with
          minDist := Function.update st.minDist s (sample angle)
          angOfMin := Function.update st.angOfMin s angle }
      else st
  | none => st

/-- The publish step of one loop iteration of the forward sweep: if a
sector just completed (`completedSector`), its running minimum is below
the `999.0f` sentinel, and the mutex is acquired (`lockOk angle`), write
`(min_distance, angle_of_min)` to the shared slot and set the sector's
updated flag; otherwise leave everything unchanged. -/
def publishUpdate (bounds : Fin 5 → ℤ × ℤ) (lockOk : ℤ → Bool)
    (stepSize : ℤ) (st : SweepState) (angle : ℤ) : SweepState :=
  match completedSector bounds st.updated angle stepSize with
  | some s =>
      if st.minDist s < 999 then
        if lockOk angle then
          { st with
            published :=
              Function.update st.published s (some (st.minDist s, st.angOfMin s))
            pubCount := Function.update st.pubCount s (st.pubCount s + 1)
            updated := Function.update st.updated s true }
        else st
      else st
  | none => st

/-- One full loop iteration of the forward sweep of `servoSweepTask`:
sample and minimum-tracking first, then the sector-completion publish. -/
def sweepStep (bounds : Fin 5 → ℤ × ℤ) (sample : ℤ → ℚ) (lockOk : ℤ → Bool)
    (stepSize : ℤ) (st : SweepState) (angle : ℤ) : SweepState :=
  publishUpdate bounds lockOk stepSize (minUpdate bounds sample st angle) angle

/-- Folding `sweepStep` over the pass's angle sequence. -/
def sweepRun (bounds : Fin 5 → ℤ × ℤ) (sample : ℤ → ℚ) (lockOk : ℤ → Bool)
    (stepSize : ℤ) : SweepState → List ℤ → SweepState
  | st, [] => st
  | st, a :: rest =>
      sweepRun bounds sample lockOk stepSize
        (sweepStep bounds sample lockOk stepSize st a) rest

/-- The angle sequence of the forward `for` loop
(`for angle = min_angle; angle <= max_angle; angle += step_size`),
with enough fuel to exhaust the loop for `stepSize ≥ 1`. -/
def angleSeqAux (stepSize maxA : ℤ) : ℕ → ℤ → List ℤ
  | 0, _ => []
  | n + 1, a =>
      if a ≤ maxA then a :: angleSeqAux stepSize maxA n (a + stepSize) else []

/-- The forward pass's angle sequence from `min_angle` to `max_angle`. -/
def angleSeq (minA maxA stepSize : ℤ) : List ℤ :=
  angleSeqAux stepSize maxA ((maxA - minA).toNat + 1) minA

/-- The induction invariant of the forward sweep for one sector `s`,
relative to the angles `proc` already processed and `rem` still to come:
the running minimum is a true minimum (with a witnessing angle) of the
valid samples seen so far in the sector, nothing is published while the
updated flag is clear, and once the flag is set exactly one publication
happened, carrying the minimum over the samples seen up to the publish,
with no further angle of the pass falling in the sector. -/
def SweepInv (bounds : Fin 5 → ℤ × ℤ) (sample : ℤ → ℚ)
    (proc rem : List ℤ) (st : SweepState) (s : Fin 5) : Prop :=
  st.minDist s ≤ 999 ∧
  (∀ θ ∈ proc, sectorIndex bounds θ = some s → 0 < sample θ →
      st.minDist s ≤ sample θ) ∧
  (st.minDist s < 999 →
      st.angOfMin s ∈ proc ∧ sectorIndex bounds (st.angOfMin s) = some s ∧
      sample (st.angOfMin s) = st.minDist s ∧ 0 < st.minDist s) ∧
  (st.updated s = false → st.pubCount s = 0 ∧ st.published s = none) ∧
  (st.updated s = true →
      st.pubCount s = 1 ∧
      (∃ d a, st.published s = some (d, a) ∧
        a ∈ proc ∧ sectorIndex bounds a = some s ∧ sample a = d ∧ 0 < d ∧
        ∀ θ ∈ proc, sectorIndex bounds θ = some s → 0 < sample θ →
          d ≤ sample θ) ∧
      ∀ θ ∈ rem, sectorIndex bounds θ ≠ some s)

/-- The five sector bounds given by the `servoSweepTask` comments in
`tof_sensor.cpp`: Motor 1: 5°-39°, Motor 2: 39°-73°, Motor 3: 73°-107°,
Motor 4: 107°-141°, Motor 5: 141°-175°. -/
def sectorBoundsDefault : Fin 5 → ℤ × ℤ :=
  ![(5, 39), (39, 73), (73, 107), (107, 141), (141, 175)]

/-! ## Theorems: PI controller -/

theorem integratorMax_pos (Ki : ℚ) : 0 < integratorMax Ki := by
  have h1 : (0 : ℚ) < max Ki piEpsilon :=
    lt_of_lt_of_le (by norm_num [piEpsilon]) (le_max_right _ _)
  have h2 : (0 : ℚ) < DUTY_MAX := by norm_num [DUTY_MAX]
  exact div_pos h2 h1

/-- After one `piMotorStep`, the stored integrator lies in
`[-integratorMax Ki, integratorMax Ki]`, whatever the previous
integrator and the inputs were. -/
theorem piMotorStep_integ_bounded (Kp Ki integ sp meas : ℚ) :
    |(piMotorStep Kp Ki integ sp meas).1| ≤ integratorMax Ki := by
  have hpos := integratorMax_pos Ki
  simp only [piMotorStep, integratorMax] at *
  rw [abs_le]
  constructor <;> split_ifs <;> linarith

/-- `Ki` times any value bounded by `integratorMax Ki` is at most
`DUTY_MAX` in magnitude, provided `Ki ≥ 0`. -/
theorem ki_mul_integ_le (Ki x : ℚ) (hKi : 0 ≤ Ki)
    (hx : |x| ≤ integratorMax Ki) : |Ki * x| ≤ DUTY_MAX := by
  have hmaxpos : (0 : ℚ) < max Ki piEpsilon :=
    lt_of_lt_of_le (by norm_num [piEpsilon]) (le_max_right _ _)
  have h1 : |Ki * x| = Ki * |x| := by
    rw [abs_mul, abs_of_nonneg hKi]
  rw [h1]
  have h2 : Ki * |x| ≤ Ki * integratorMax Ki :=
    mul_le_mul_of_nonneg_left hx hKi
  have h3 : Ki * integratorMax Ki ≤ DUTY_MAX := by
    have h4 : Ki ≤ max Ki piEpsilon := le_max_left _ _
    have h5 : (0 : ℚ) ≤ DUTY_MAX / max Ki piEpsilon :=
      le_of_lt (integratorMax_pos Ki)
    have h6 : Ki * (DUTY_MAX / max Ki piEpsilon) ≤
        max Ki piEpsilon * (DUTY_MAX / max Ki piEpsilon) :=
      mul_le_mul_of_nonneg_right h4 h5
    have h7 : max Ki piEpsilon * (DUTY_MAX / max Ki piEpsilon) = DUTY_MAX := by
      field_simp
    rw [integratorMax]
    linarith
  linarith

theorem piRun_cons (Kp Ki integ0 sp meas : ℚ) (rest : List (ℚ × ℚ)) :
    piRun Kp Ki integ0 ((sp, meas) :: rest) =
      piRun Kp Ki (piMotorStep Kp Ki integ0 sp meas).1 rest := rfl

/-- If the integrator starts inside the anti-windup band it stays there
along any run. -/
theorem piRun_integ_bounded (Kp Ki : ℚ) (inputs : List (ℚ × ℚ)) :
    ∀ integ0, |integ0| ≤ integratorMax Ki →
      |piRun Kp Ki integ0 inputs| ≤ integratorMax Ki := by
  induction inputs with
  | nil => intro integ0 h; exact h
  | cons p rest ih =>
      intro integ0 _
      obtain ⟨sp, meas⟩ := p
      rw [piRun_cons]
      exact ih _ (piMotorStep_integ_bounded Kp Ki integ0 sp meas)

/-- **C4.** After every PI control step the integrator is clamped to
`±(DUTY_MAX / max Ki piEpsilon)`; consequently, for any non-empty sequence
of (setpoint, measurement) inputs — including a constant large positive
error applied arbitrarily many times — and any starting integrator, the
integral contribution `Ki * integrator` of the final state never exceeds
`DUTY_MAX` in magnitude (for the non-negative gains the system uses). -/
theorem pi_antiwindup_bounds (Kp Ki integ0 : ℚ) (inputs : List (ℚ × ℚ))
    (hne : inputs ≠ []) (hKi : 0 ≤ Ki) :
    |piRun Kp Ki integ0 inputs| ≤ integratorMax Ki ∧
    |Ki * piRun Kp Ki integ0 inputs| ≤ DUTY_MAX := by
  have hbound : |piRun Kp Ki integ0 inputs| ≤ integratorMax Ki := by
    match inputs, hne with
    | (sp, meas) :: rest, _ =>
        rw [piRun_cons]
        exact piRun_integ_bounded Kp Ki rest _
          (piMotorStep_integ_bounded Kp Ki integ0 sp meas)
  exact ⟨hbound, ki_mul_integ_le Ki _ hKi hbound⟩

/-- Witness for C4: gains `Kp = 12`, `Ki = 48`, five steps of constant
error `+1000` (whose unclamped `error*dt` sum `5 * 20 = 100` would exceed
`integratorMax 48 = 100/48`), starting from integrator `0`. -/
theorem pi_antiwindup_bounds_witness :
    ([((1000 : ℚ), 0), (1000, 0), (1000, 0), (1000, 0), (1000, 0)] ≠
        ([] : List (ℚ × ℚ))) ∧ (0 : ℚ) ≤ 48 ∧
    (|piRun 12 48 0 [((1000 : ℚ), 0), (1000, 0), (1000, 0), (1000, 0), (1000, 0)]| ≤
        integratorMax 48 ∧
     |48 * piRun 12 48 0
        [((1000 : ℚ), 0), (1000, 0), (1000, 0), (1000, 0), (1000, 0)]| ≤ DUTY_MAX) :=
  ⟨by simp, by norm_num,
    pi_antiwindup_bounds 12 48 0 _ (by simp) (by norm_num)⟩

/-- `piMotorStep` is the deadband gate applied on top of the ungated step;
the integrator components coincide definitionally. -/
theorem piMotorStep_eq_raw (Kp Ki integ sp meas : ℚ) :
    piMotorStep Kp Ki integ sp meas =
      ((piMotorStepRaw Kp Ki integ sp meas).1,
       deadband (piMotorStepRaw Kp Ki integ sp meas).2) := rfl

/-- **C5.** If the saturated raw output has magnitude strictly below the
deadband threshold `MIN_RUN`, the emitted command is exactly `0`
(regardless of the raw output's sign), and the stored integrator after the
step is identical to the integrator of the step without the deadband gate:
the gate affects only the emitted command. -/
theorem pi_deadband_gate (Kp Ki integ sp meas : ℚ)
    (h : |(piMotorStepRaw Kp Ki integ sp meas).2| < MIN_RUN) :
    (piMotorStep Kp Ki integ sp meas).2 = 0 ∧
    (piMotorStep Kp Ki integ sp meas).1 = (piMotorStepRaw Kp Ki integ sp meas).1 := by
  rw [piMotorStep_eq_raw]
  rw [abs_lt] at h
  refine ⟨?_, rfl⟩
  show deadband _ = 0
  rw [deadband]
  split_ifs with h1 h2
  · linarith [h.2]
  · linarith [h.1]
  · rfl

/-- Witness for C5: `Kp = 1`, `Ki = 0`, integrator `0`, setpoint `10`,
measurement `0` gives raw saturated duty `10` with `|10| < 40`, so the
emitted command is `0` while the integrator matches the ungated step. -/
theorem pi_deadband_gate_witness :
    |(piMotorStepRaw 1 0 0 10 0).2| < MIN_RUN ∧
    ((piMotorStep 1 0 0 10 0).2 = 0 ∧
     (piMotorStep 1 0 0 10 0).1 = (piMotorStepRaw 1 0 0 10 0).1) := by
  have h : |(piMotorStepRaw 1 0 0 10 0).2| < MIN_RUN := by
    norm_num [piMotorStepRaw, CTRL_DT_S, CTRL_FREQ_HZ, DUTY_MAX, DUTY_MIN,
      MIN_RUN, piEpsilon]
  exact ⟨h, pi_deadband_gate 1 0 0 10 0 h⟩

/-! ## Theorems: distance classifier and setpoint policy -/

/-- **C3 counterexample.** The classifier maps `40` to `outOfBounds`, not
to `close`: the Close band has the fixed lower limit
`DISTANCE_CLOSE_MIN = 50` (sensor minimum), so `40` falls outside every
band. -/
theorem classifier_at_40_counterexample :
    getDistanceRange 40 = DistanceRange.outOfBounds ∧
    getDistanceRange 40 ≠ DistanceRange.close := by
  have h : getDistanceRange 40 = DistanceRange.outOfBounds := by
    norm_num [getDistanceRange, DISTANCE_CLOSE_MIN, DISTANCE_MEDIUM_MIN,
      DISTANCE_FAR_MIN, DISTANCE_FAR_MAX]
  refine ⟨h, ?_⟩
  rw [h]
  intro hc
  exact DistanceRange.noConfusion hc

/-- **C3 (amended).** Every negative input maps to `unknown`; with the
thresholds in force, `60 ↦ close`, `150 ↦ medium`, `250 ↦ far`,
`400 ↦ outOfBounds`, `-1 ↦ unknown`, while `40 ↦ outOfBounds` because the
combined span has the lower limit `DISTANCE_CLOSE_MIN = 50`; every
non-negative distance inside `[50, 300]` yields one of
`{far, medium, close}`, and every non-negative distance outside that span
yields `outOfBounds`. -/
theorem classifier_spec (d : ℚ) :
    getDistanceRange (-1) = DistanceRange.unknown ∧
    getDistanceRange 60 = DistanceRange.close ∧
    getDistanceRange 150 = DistanceRange.medium ∧
    getDistanceRange 250 = DistanceRange.far ∧
    getDistanceRange 400 = DistanceRange.outOfBounds ∧
    getDistanceRange 40 = DistanceRange.outOfBounds ∧
    (d < 0 → getDistanceRange d = DistanceRange.unknown) ∧
    (0 ≤ d → DISTANCE_CLOSE_MIN ≤ d → d ≤ DISTANCE_FAR_MAX →
      getDistanceRange d = DistanceRange.far ∨
      getDistanceRange d = DistanceRange.medium ∨
      getDistanceRange d = DistanceRange.close) ∧
    (0 ≤ d → d < DISTANCE_CLOSE_MIN ∨ DISTANCE_FAR_MAX < d →
      getDistanceRange d = DistanceRange.outOfBounds) := by
  refine ⟨?_, ?_, ?_, ?_, ?_, ?_, ?_, ?_, ?_⟩
  · norm_num [getDistanceRange, DISTANCE_CLOSE_MIN, DISTANCE_MEDIUM_MIN,
      DISTANCE_FAR_MIN, DISTANCE_FAR_MAX]
  · norm_num [getDistanceRange, DISTANCE_CLOSE_MIN, DISTANCE_MEDIUM_MIN,
      DISTANCE_FAR_MIN, DISTANCE_FAR_MAX]
  · norm_num [getDistanceRange, DISTANCE_CLOSE_MIN, DISTANCE_MEDIUM_MIN,
      DISTANCE_FAR_MIN, DISTANCE_FAR_MAX]
  · norm_num [getDistanceRange, DISTANCE_CLOSE_MIN, DISTANCE_MEDIUM_MIN,
      DISTANCE_FAR_MIN, DISTANCE_FAR_MAX]
  · norm_num [getDistanceRange, DISTANCE_CLOSE_MIN, DISTANCE_MEDIUM_MIN,
      DISTANCE_FAR_MIN, DISTANCE_FAR_MAX]
  · norm_num [getDistanceRange, DISTANCE_CLOSE_MIN, DISTANCE_MEDIUM_MIN,
      DISTANCE_FAR_MIN, DISTANCE_FAR_MAX]
  · intro hd
    simp only [getDistanceRange, if_pos hd]
  · intro hd0 hlo hhi
    simp only [getDistanceRange, DISTANCE_CLOSE_MIN, DISTANCE_MEDIUM_MIN,
      DISTANCE_FAR_MIN, DISTANCE_FAR_MAX] at *
    split_ifs with h1 h2 h3 h4
    · linarith
    · exact Or.inl rfl
    · exact Or.inr (Or.inl rfl)
    · exact Or.inr (Or.inr rfl)
    · exfalso
      rcases le_or_lt 200 d with hc | hc
      · exact h2 ⟨hc, hhi⟩
      · rcases le_or_lt 100 d with hm | hm
        · exact h3 ⟨hm, hc⟩
        · exact h4 ⟨hlo, hm⟩
  · intro hd0 hout
    simp only [getDistanceRange, DISTANCE_CLOSE_MIN, DISTANCE_MEDIUM_MIN,
      DISTANCE_FAR_MIN, DISTANCE_FAR_MAX] at *
    split_ifs with h1 h2 h3 h4
    · linarith
    · rcases hout with hout | hout <;> linarith [h2.1, h2.2]
    · rcases hout with hout | hout <;> linarith [h3.1, h3.2]
    · rcases hout with hout | hout <;> linarith [h4.1, h4.2]
    · rfl

/-- Witness for C3's amended theorem at `d = 70`: inside the span, the
classifier yields one of the three in-band categories. -/
theorem classifier_spec_witness :
    (0 : ℚ) ≤ 70 ∧ DISTANCE_CLOSE_MIN ≤ (70 : ℚ) ∧
    (70 : ℚ) ≤ DISTANCE_FAR_MAX ∧
    (getDistanceRange 70 = DistanceRange.far ∨
     getDistanceRange 70 = DistanceRange.medium ∨
     getDistanceRange 70 = DistanceRange.close) :=
  ⟨by norm_num, by norm_num [DISTANCE_CLOSE_MIN],
   by norm_num [DISTANCE_FAR_MAX],
   (classifier_spec 70).2.2.2.2.2.2.2.1 (by norm_num)
     (by norm_num [DISTANCE_CLOSE_MIN]) (by norm_num [DISTANCE_FAR_MAX])⟩

/-- **C8.** The setpoint function: `far` with a captured positive baseline
gives `baseline + SECURITY_OFFSET_N`; `far` without one gives the fixed
`SETPOINT_FAR_N`; `medium` and `close` give fixed constants with
`SETPOINT_CLOSE_N > SETPOINT_MEDIUM_N > SETPOINT_FAR_N`; `unknown` and
`outOfBounds` give the negative sentinel `-1`. -/
theorem setpoint_policy (b : ℚ) :
    (0 < b → calculateSetpoint .far b = b + SECURITY_OFFSET_N) ∧
    (b ≤ 0 → calculateSetpoint .far b = SETPOINT_FAR_N) ∧
    calculateSetpoint .medium b = SETPOINT_MEDIUM_N ∧
    calculateSetpoint .close b = SETPOINT_CLOSE_N ∧
    SETPOINT_MEDIUM_N < SETPOINT_CLOSE_N ∧
    SETPOINT_FAR_N < SETPOINT_MEDIUM_N ∧
    calculateSetpoint .unknown b = -1 ∧
    calculateSetpoint .outOfBounds b = -1 ∧
    (-1 : ℚ) < 0 := by
  refine ⟨?_, ?_, rfl, rfl, by norm_num [SETPOINT_MEDIUM_N, SETPOINT_CLOSE_N],
    by norm_num [SETPOINT_FAR_N, SETPOINT_MEDIUM_N], rfl, rfl, by norm_num⟩
  · intro hb
    simp only [calculateSetpoint, if_pos hb]
  · intro hb
    simp only [calculateSetpoint, if_neg (not_lt.mpr hb)]

/-- Witness for C8 at baseline `2` (and, for the no-baseline branch, `0`). -/
theorem setpoint_policy_witness :
    (0 : ℚ) < 2 ∧ calculateSetpoint .far 2 = 2 + SECURITY_OFFSET_N ∧
    (0 : ℚ) ≤ 0 ∧ calculateSetpoint .far 0 = SETPOINT_FAR_N :=
  ⟨by norm_num, (setpoint_policy 2).1 (by norm_num), le_refl 0,
   (setpoint_policy 0).2.1 (le_refl 0)⟩

/-! ## Theorems: published-distance accessors -/

/-- **C2 counterexample.** With every shared slot holding `120` (so the
previous successful read returned `120`), a read that fails to acquire the
lock returns the fixed fallback `999`, not the previously-read value
`120`. -/
theorem lock_timeout_returns_sentinel_counterexample :
    getMinDistance (fun _ => 120) true 0 = 120 ∧
    getMinDistance (fun _ => 120) false 0 = 999 ∧
    (999 : ℚ) ≠ 120 := by
  refine ⟨?_, ?_, by norm_num⟩ <;>
    simp [getMinDistance, NUM_MOTORS]

/-- **C2 (amended).** For every in-range motor index, a read that fails to
acquire the lock within its bounded timeout returns the fixed sentinel
default (`999.0` for `getMinDistance`, `SERVO_MIN_ANGLE` for
`getBestAngle`) regardless of the stored values, and a read that acquires
the lock returns exactly the stored slot (never a partially-written
value). -/
theorem lock_timeout_fallback (shared : Fin 5 → ℚ) (sharedAngle : Fin 5 → ℤ)
    (i : ℤ) (h0 : 0 ≤ i) (h5 : i < NUM_MOTORS) :
    getMinDistance shared false i = 999 ∧
    getBestAngle sharedAngle false i = SERVO_MIN_ANGLE ∧
    ∀ j : Fin 5, i = j.val →
      getMinDistance shared true i = shared j ∧
      getBestAngle sharedAngle true i = sharedAngle j := by
  simp only [NUM_MOTORS] at h5
  have hni : ¬(i < 0 ∨ NUM_MOTORS ≤ i) := by
    simp only [NUM_MOTORS]
    omega
  refine ⟨?_, ?_, ?_⟩
  · simp [getMinDistance, dif_neg hni]
  · simp [getBestAngle, dif_neg hni]
  · intro j hj
    have hjeq : (⟨i.toNat, by omega⟩ : Fin 5) = j := by
      apply Fin.ext
      simp only []
      omega
    constructor
    · simp only [getMinDistance, dif_neg hni, if_pos rfl]
      exact congrArg shared hjeq
    · simp only [getBestAngle, dif_neg hni, if_pos rfl]
      exact congrArg sharedAngle hjeq

/-- Witness for C2's amended theorem at index `3`. -/
theorem lock_timeout_fallback_witness :
    (0 : ℤ) ≤ 3 ∧ (3 : ℤ) < NUM_MOTORS ∧
    getMinDistance (fun k => (k : ℚ) + 100) false 3 = 999 ∧
    getBestAngle (fun k => (k : ℤ) + 10) false 3 = SERVO_MIN_ANGLE := by
  have h := lock_timeout_fallback (fun k => (k : ℚ) + 100)
    (fun k => (k : ℤ) + 10) 3 (by norm_num) (by norm_num [NUM_MOTORS])
  exact ⟨by norm_num, by norm_num [NUM_MOTORS], h.1, h.2.1⟩

/-- **C10.** For every integer motor index outside `[0, NUM_MOTORS)`,
`getMinDistance` and `getBestAngle` return their sentinel defaults
(`999.0` and `SERVO_MIN_ANGLE`), independently of the shared arrays and of
the lock state, so no call with any integer argument reaches the shared
arrays out of bounds (in the embedding the array access carries an
in-bounds proof available only under the guard). -/
theorem accessor_out_of_range_safe (shared : Fin 5 → ℚ)
    (sharedAngle : Fin 5 → ℤ) (lock : Bool) (i : ℤ)
    (h : i < 0 ∨ NUM_MOTORS ≤ i) :
    getMinDistance shared lock i = 999 ∧
    getBestAngle sharedAngle lock i = SERVO_MIN_ANGLE := by
  constructor
  · simp [getMinDistance, dif_pos h]
  · simp [getBestAngle, dif_pos h]

/-- Witness for C10 at index `7` (and lock held, arrays arbitrary). -/
theorem accessor_out_of_range_safe_witness :
    ((7 : ℤ) < 0 ∨ NUM_MOTORS ≤ 7) ∧
    getMinDistance (fun _ => 42) true 7 = 999 ∧
    getBestAngle (fun _ => 42) true 7 = SERVO_MIN_ANGLE := by
  have h : (7 : ℤ) < 0 ∨ NUM_MOTORS ≤ 7 := by norm_num [NUM_MOTORS]
  exact ⟨h, accessor_out_of_range_safe (fun _ => 42) (fun _ => 42) true 7 h⟩

/-! ## Theorems: safety state machine and control cycle -/

/-- **C1 counterexample.** A motor in `WAITING_FOR_VALID_READING` with
accumulated integrator `7` sees a valid `medium` reading (setpoint `50`):
the state machine transitions it back to `NORMAL_OPERATION`, but the
integrator stored after that cycle's PI step is still `7`, not `0` — no
reset happens on the transition (with zero junk error the PI step leaves
the integrator unchanged, so a reset-to-zero would have produced `0`). -/
theorem waiting_to_normal_no_reset_counterexample :
    (motorCycle 0 1 ⟨.waitingForValidReading, 0, 0, 7⟩ .medium 50 50 0 0
        1000).state = SystemState.normalOperation ∧
    (motorCycle 0 1 ⟨.waitingForValidReading, 0, 0, 7⟩ .medium 50 50 0 0
        1000).integ = 7 ∧
    (7 : ℚ) ≠ 0 := by
  have hv : is_valid .medium (50 : ℚ) = true := by decide
  have hmax : max (1 : ℚ) piEpsilon = 1 := max_eq_left (by norm_num [piEpsilon])
  refine ⟨?_, ?_, by norm_num⟩ <;>
    norm_num [motorCycle, safetyStep, hv, piMotorStep, hmax, CTRL_DT_S,
      CTRL_FREQ_HZ, DUTY_MAX, DUTY_MIN, MIN_RUN]

/-- **C1 (amended).** Whenever a control cycle transitions a motor from
any non-`NORMAL_OPERATION` state (deflating at `main.cpp:621-624` or
waiting at `main.cpp:643-652`; releasing never transitions directly to
`NORMAL_OPERATION`) back into `NORMAL_OPERATION`, the motor's PI
integrator is NOT reset: the cycle's PI step continues from the
previously accumulated integrator value (`resetIntegrators` zeroes all
integrators but its only caller under `src/` is `initPIController`). -/
theorem nonnormal_to_normal_keeps_integrator (Kp Ki : ℚ) (pre : MotorState)
    (range : DistanceRange) (setpoint pressure junkSp junkMeas : ℚ)
    (t : ℕ) (hpre : pre.state ≠ SystemState.normalOperation)
    (hpost : (motorCycle Kp Ki pre range setpoint pressure junkSp junkMeas
        t).state = SystemState.normalOperation) :
    (motorCycle Kp Ki pre range setpoint pressure junkSp junkMeas t).integ =
      (piMotorStep Kp Ki pre.integ junkSp junkMeas).1 ∧
    (∀ i : Fin 5, initPIController i = (0, 0)) := by
  refine ⟨?_, fun i => rfl⟩
  cases hstate : pre.state with
  | normalOperation => exact absurd hstate hpre
  | outOfRangeDeflating =>
      by_cases hv : is_valid range setpoint = true
      · simp [motorCycle, safetyStep, hstate, hv]
      · rw [Bool.not_eq_true] at hv
        by_cases ht : RELEASE_TIME_MS ≤ t - pre.reverseStart
        · simp [motorCycle, safetyStep, hstate, hv, ht] at hpost
        · simp [motorCycle, safetyStep, hstate, hv, ht] at hpost
  | outOfRangeReleasing =>
      simp [motorCycle, safetyStep, hstate] at hpost
  | waitingForValidReading =>
      by_cases hv : is_valid range setpoint = true
      · simp [motorCycle, safetyStep, hstate, hv]
      · rw [Bool.not_eq_true] at hv
        simp [motorCycle, safetyStep, hstate, hv] at hpost

/-- Witness for C1's amended theorem: once at the counterexample's
waiting-state input, and once at a deflating-state input whose reading
turned valid. -/
theorem nonnormal_to_normal_keeps_integrator_witness :
    (MotorState.state ⟨.waitingForValidReading, 0, 0, 7⟩ ≠
        SystemState.normalOperation) ∧
    (motorCycle 0 1 ⟨.waitingForValidReading, 0, 0, 7⟩ .medium 50 50 0 0
        1000).state = SystemState.normalOperation ∧
    (motorCycle 0 1 ⟨.waitingForValidReading, 0, 0, 7⟩ .medium 50 50 0 0
        1000).integ = (piMotorStep 0 1 (7 : ℚ) 0 0).1 ∧
    (MotorState.state ⟨.outOfRangeDeflating, 0, -60, 9⟩ ≠
        SystemState.normalOperation) ∧
    (motorCycle 0 1 ⟨.outOfRangeDeflating, 0, -60, 9⟩ .close 100 30 0 0
        1000).state = SystemState.normalOperation ∧
    (motorCycle 0 1 ⟨.outOfRangeDeflating, 0, -60, 9⟩ .close 100 30 0 0
        1000).integ = (piMotorStep 0 1 (9 : ℚ) 0 0).1 := by
  have hvm : is_valid .medium (50 : ℚ) = true := by decide
  have hvc : is_valid .close (100 : ℚ) = true := by decide
  have hpre1 : MotorState.state ⟨.waitingForValidReading, 0, 0, 7⟩ ≠
      SystemState.normalOperation := by simp
  have hpre2 : MotorState.state ⟨.outOfRangeDeflating, 0, -60, 9⟩ ≠
      SystemState.normalOperation := by simp
  have hpost1 : (motorCycle 0 1 ⟨.waitingForValidReading, 0, 0, 7⟩ .medium
      50 50 0 0 1000).state = SystemState.normalOperation := by
    simp [motorCycle, safetyStep, hvm]
  have hpost2 : (motorCycle 0 1 ⟨.outOfRangeDeflating, 0, -60, 9⟩ .close
      100 30 0 0 1000).state = SystemState.normalOperation := by
    simp [motorCycle, safetyStep, hvc]
  exact ⟨hpre1, hpost1,
    (nonnormal_to_normal_keeps_integrator 0 1 ⟨.waitingForValidReading, 0, 0,
      7⟩ .medium 50 50 0 0 1000 hpre1 hpost1).1,
    hpre2, hpost2,
    (nonnormal_to_normal_keeps_integrator 0 1 ⟨.outOfRangeDeflating, 0, -60,
      9⟩ .close 100 30 0 0 1000 hpre2 hpost2).1⟩

/-- **C6.** After a control cycle, every motor whose (post-transition)
safety state is not `NORMAL_OPERATION` has the state's fixed command in
force — fixed-magnitude reverse drive at `REVERSE_DUTY_PCT` while
deflating/releasing, brake while waiting — regardless of what the batch PI
computation produced for it (the junk PI inputs are universally
quantified); the PI command is the one in force only for motors in
`NORMAL_OPERATION`. -/
theorem safety_override_wins (Kp Ki : ℚ) (pre : MotorState)
    (range : DistanceRange) (setpoint pressure junkSp junkMeas : ℚ)
    (t : ℕ) :
    ((motorCycle Kp Ki pre range setpoint pressure junkSp junkMeas t).state =
        SystemState.outOfRangeDeflating ∨
     (motorCycle Kp Ki pre range setpoint pressure junkSp junkMeas t).state =
        SystemState.outOfRangeReleasing →
       (motorCycle Kp Ki pre range setpoint pressure junkSp junkMeas
          t).applied = MotorAction.reverse REVERSE_DUTY_PCT) ∧
    ((motorCycle Kp Ki pre range setpoint pressure junkSp junkMeas t).state =
        SystemState.waitingForValidReading →
       (motorCycle Kp Ki pre range setpoint pressure junkSp junkMeas
          t).applied = MotorAction.brake) ∧
    ((motorCycle Kp Ki pre range setpoint pressure junkSp junkMeas t).state =
        SystemState.normalOperation →
       (motorCycle Kp Ki pre range setpoint pressure junkSp junkMeas
          t).applied =
         applyCommand (motorCycle Kp Ki pre range setpoint pressure junkSp
           junkMeas t).duty) := by
  refine ⟨?_, ?_, ?_⟩ <;>
  · simp only [motorCycle]
    split <;> simp_all

/-- Witness for C6 at a concrete out-of-bounds input: a motor in
`NORMAL_OPERATION` that reads `outOfBounds` transitions to deflating and
ends the cycle with the fixed reverse command. -/
theorem safety_override_wins_witness :
    ((motorCycle 0 1 ⟨.normalOperation, 0, 0, 3⟩ .outOfBounds (-1) 20 0 0
        500).state = SystemState.outOfRangeDeflating ∨
     (motorCycle 0 1 ⟨.normalOperation, 0, 0, 3⟩ .outOfBounds (-1) 20 0 0
        500).state = SystemState.outOfRangeReleasing) ∧
    (motorCycle 0 1 ⟨.normalOperation, 0, 0, 3⟩ .outOfBounds (-1) 20 0 0
        500).applied = MotorAction.reverse REVERSE_DUTY_PCT := by
  have hs : (motorCycle 0 1 ⟨.normalOperation, 0, 0, 3⟩ .outOfBounds (-1) 20
      0 0 500).state = SystemState.outOfRangeDeflating := by
    norm_num [motorCycle, safetyStep, is_out_of_bounds]
  exact ⟨Or.inl hs,
    (safety_override_wins 0 1 ⟨.normalOperation, 0, 0, 3⟩ .outOfBounds (-1)
      20 0 0 500).1 (Or.inl hs)⟩

/-! ## Theorems: runtime tuning setters -/

/-- **C9 counterexample.** The PI-gain setter performs no validation: the
out-of-range request `(-1, -2)` (negative gains) is stored unchanged,
overwriting the default gains, with no rejection signal of any kind. -/
theorem setPIGains_no_validation_counterexample :
    setPIGains (-1) (-2) = (-1, -2) ∧ ((-1 : ℚ) < 0) ∧
    setPIGains (-1) (-2) ≠ defaultGains := by
  refine ⟨rfl, by norm_num, ?_⟩
  intro h
  rw [setPIGains, defaultGains, Prod.mk.injEq] at h
  norm_num at h

/-- **C9 (amended).** Every sweep/servo runtime setter validates its input
(angles within `[0, 180]`, `min < max`, step within `[1, 20]`) and rejects
each out-of-range request with an explicit error reply while leaving the
configuration unchanged; the PI-gain setter `setPIGains`, by contrast,
stores any requested gains unconditionally (see the counterexample). -/
theorem sweep_setters_reject_invalid (cfg : SweepConfig) (lockOk : Bool)
    (v : ℤ) :
    (validateAngle v = false →
       handleSweepMin cfg lockOk v = (cfg, .err) ∧
       handleSweepMax cfg lockOk v = (cfg, .err) ∧
       handleServoAngle cfg lockOk v = (cfg, .err)) ∧
    (validateStep v = false → handleSweepStep cfg lockOk v = (cfg, .err)) ∧
    (validateSweepRange v cfg.servo_max_angle = false →
       handleSweepMin cfg lockOk v = (cfg, .err)) ∧
    (validateSweepRange cfg.servo_min_angle v = false →
       handleSweepMax cfg lockOk v = (cfg, .err)) := by
  refine ⟨?_, ?_, ?_, ?_⟩
  · intro hv
    refine ⟨?_, ?_, ?_⟩ <;> simp [handleSweepMin, handleSweepMax,
      handleServoAngle, hv]
  · intro hv
    simp [handleSweepStep, hv]
  · intro hr
    cases hA : validateAngle v <;> cases lockOk <;>
      simp [handleSweepMin, hA, hr]
  · intro hr
    cases hA : validateAngle v <;> cases lockOk <;>
      simp [handleSweepMax, hA, hr]

/-- Witness for C9's amended theorem: the request `200` is outside every
validated range, and all four setters reject it on the stock
configuration without mutating it. -/
theorem sweep_setters_reject_invalid_witness :
    validateAngle 200 = false ∧ validateStep 200 = false ∧
    validateSweepRange 200 (SweepConfig.servo_max_angle
      ⟨true, 5, 175, 5, 90⟩) = false ∧
    validateSweepRange (SweepConfig.servo_min_angle
      ⟨true, 5, 175, 5, 90⟩) 200 = false ∧
    handleSweepMin ⟨true, 5, 175, 5, 90⟩ true 200 =
      (⟨true, 5, 175, 5, 90⟩, .err) ∧
    handleSweepMax ⟨true, 5, 175, 5, 90⟩ true 200 =
      (⟨true, 5, 175, 5, 90⟩, .err) ∧
    handleServoAngle ⟨true, 5, 175, 5, 90⟩ true 200 =
      (⟨true, 5, 175, 5, 90⟩, .err) ∧
    handleSweepStep ⟨true, 5, 175, 5, 90⟩ true 200 =
      (⟨true, 5, 175, 5, 90⟩, .err) := by
  have h := sweep_setters_reject_invalid ⟨true, 5, 175, 5, 90⟩ true 200
  have h1 : validateAngle 200 = false := by decide
  have h2 : validateStep 200 = false := by decide
  have h3 : validateSweepRange 200 (SweepConfig.servo_max_angle
      ⟨true, 5, 175, 5, 90⟩) = false := by decide
  have h4 : validateSweepRange (SweepConfig.servo_min_angle
      ⟨true, 5, 175, 5, 90⟩) 200 = false := by decide
  obtain ⟨ha, hb, hc, hd⟩ := h
  obtain ⟨hm1, hm2, hm3⟩ := ha h1
  exact ⟨h1, h2, h3, h4, hm1, hm2, hm3, hb h2⟩

/-! ## Theorems: forward servo sweep pass -/

/-- Any angle the membership chain assigns to sector `s` is at most that
sector's upper bound. -/
theorem sectorIndex_le_max (bounds : Fin 5 → ℤ × ℤ) (θ : ℤ) (s : Fin 5)
    (h : sectorIndex bounds θ = some s) : θ ≤ (bounds s).2 := by
  unfold sectorIndex at h
  split_ifs at h with h0 h1 h2 h3 h4
  all_goals first
    | (injection h with h; subst h; omega)
    | exact absurd h (by simp)

/-- What a successful `completedSector` result guarantees: the sector's
forward exit condition holds and its updated flag was clear. -/
theorem completedSector_spec (bounds : Fin 5 → ℤ × ℤ) (upd : Fin 5 → Bool)
    (θ stepSize : ℤ) (s : Fin 5)
    (h : completedSector bounds upd θ stepSize = some s) :
    ((bounds s).2 ≤ θ ∨ (bounds s).2 < θ + stepSize) ∧ upd s = false := by
  unfold completedSector at h
  split_ifs at h with h0 h1 h2 h3 h4
  all_goals first
    | (injection h with h; subst h; assumption)
    | exact absurd h (by simp)

theorem minUpdate_updated (bounds : Fin 5 → ℤ × ℤ) (sample : ℤ → ℚ)
    (st : SweepState) (θ : ℤ) :
    (minUpdate bounds sample st θ).updated = st.updated := by
  unfold minUpdate
  cases sectorIndex bounds θ with
  | none => rfl
  | some s => dsimp; split_ifs <;> rfl

theorem minUpdate_published (bounds : Fin 5 → ℤ × ℤ) (sample : ℤ → ℚ)
    (st : SweepState) (θ : ℤ) :
    (minUpdate bounds sample st θ).published = st.published := by
  unfold minUpdate
  cases sectorIndex bounds θ with
  | none => rfl
  | some s => dsimp; split_ifs <;> rfl

theorem minUpdate_pubCount (bounds : Fin 5 → ℤ × ℤ) (sample : ℤ → ℚ)
    (st : SweepState) (θ : ℤ) :
    (minUpdate bounds sample st θ).pubCount = st.pubCount := by
  unfold minUpdate
  cases sectorIndex bounds θ with
  | none => rfl
  | some s => dsimp; split_ifs <;> rfl

/-- The minimum-tracking phase preserves (and extends by the new angle)
the running-minimum part of the sweep invariant. -/
theorem minUpdate_minInv (bounds : Fin 5 → ℤ × ℤ) (sample : ℤ → ℚ)
    (st : SweepState) (θ0 : ℤ) (s : Fin 5) (proc : List ℤ)
    (h999 : st.minDist s ≤ 999)
    (hmin : ∀ θ ∈ proc, sectorIndex bounds θ = some s → 0 < sample θ →
        st.minDist s ≤ sample θ)
    (hatt : st.minDist s < 999 →
        st.angOfMin s ∈ proc ∧ sectorIndex bounds (st.angOfMin s) = some s ∧
        sample (st.angOfMin s) = st.minDist s ∧ 0 < st.minDist s) :
    (minUpdate bounds sample st θ0).minDist s ≤ 999 ∧
    (∀ θ ∈ proc ++ [θ0], sectorIndex bounds θ = some s → 0 < sample θ →
        (minUpdate bounds sample st θ0).minDist s ≤ sample θ) ∧
    ((minUpdate bounds sample st θ0).minDist s < 999 →
        (minUpdate bounds sample st θ0).angOfMin s ∈ proc ++ [θ0] ∧
        sectorIndex bounds ((minUpdate bounds sample st θ0).angOfMin s) =
          some s ∧
        sample ((minUpdate bounds sample st θ0).angOfMin s) =
          (minUpdate bounds sample st θ0).minDist s ∧
        0 < (minUpdate bounds sample st θ0).minDist s) := by
  unfold minUpdate
  cases hsi : sectorIndex bounds θ0 with
  | none =>
      refine ⟨h999, ?_, ?_⟩
      · intro θ hθ hsec hpos
        rcases List.mem_append.mp hθ with hθ | hθ
        · exact hmin θ hθ hsec hpos
        · simp only [List.mem_singleton] at hθ
          subst hθ
          rw [hsi] at hsec
          exact absurd hsec (by simp)
      · intro hlt
        obtain ⟨hin, hs2, hs3, hs4⟩ := hatt hlt
        exact ⟨List.mem_append.mpr (Or.inl hin), hs2, hs3, hs4⟩
  | some s0 =>
      dsimp only
      split_ifs with hcond
      · by_cases hss : s0 = s
        · subst hss
          simp only [Function.update_same]
          refine ⟨by linarith [hcond.2], ?_, ?_⟩
          · intro θ hθ hsec hpos
            rcases List.mem_append.mp hθ with hθ | hθ
            · exact le_of_lt (lt_of_lt_of_le hcond.2 (hmin θ hθ hsec hpos))
            · simp only [List.mem_singleton] at hθ
              subst hθ
              exact le_refl _
          · intro _
            exact ⟨List.mem_append.mpr (Or.inr (by simp)), hsi, by simp,
              hcond.1⟩
        · have hne : s ≠ s0 := fun h => hss h.symm
          simp only [Function.update_noteq hne]
          refine ⟨h999, ?_, ?_⟩
          · intro θ hθ hsec hpos
            rcases List.mem_append.mp hθ with hθ | hθ
            · exact hmin θ hθ hsec hpos
            · simp only [List.mem_singleton] at hθ
              subst hθ
              rw [hsi] at hsec
              injection hsec with hsec
              exact absurd hsec hss
          · intro hlt
            obtain ⟨hin, hs2, hs3, hs4⟩ := hatt hlt
            exact ⟨List.mem_append.mpr (Or.inl hin), hs2, hs3, hs4⟩
      · refine ⟨h999, ?_, ?_⟩
        · intro θ hθ hsec hpos
          rcases List.mem_append.mp hθ with hθ | hθ
          · exact hmin θ hθ hsec hpos
          · simp only [List.mem_singleton] at hθ
            subst hθ
            rw [hsi] at hsec
            injection hsec with hsec
            subst hsec
            push_neg at hcond
            exact hcond hpos
        · intro hlt
          obtain ⟨hin, hs2, hs3, hs4⟩ := hatt hlt
          exact ⟨List.mem_append.mpr (Or.inl hin), hs2, hs3, hs4⟩

theorem publishUpdate_minDist (bounds : Fin 5 → ℤ × ℤ) (lockOk : ℤ → Bool)
    (stepSize : ℤ) (st : SweepState) (θ : ℤ) :
    (publishUpdate bounds lockOk stepSize st θ).minDist = st.minDist := by
  unfold publishUpdate
  cases completedSector bounds st.updated θ stepSize with
  | none => rfl
  | some s => dsimp; split_ifs <;> rfl

theorem publishUpdate_angOfMin (bounds : Fin 5 → ℤ × ℤ) (lockOk : ℤ → Bool)
    (stepSize : ℤ) (st : SweepState) (θ : ℤ) :
    (publishUpdate bounds lockOk stepSize st θ).angOfMin = st.angOfMin := by
  unfold publishUpdate
  cases completedSector bounds st.updated θ stepSize with
  | none => rfl
  | some s => dsimp; split_ifs <;> rfl

/-- Carrying the sweep invariant across one processed angle when the
publication state of sector `s` did not change in that iteration. -/
theorem sweepInv_extend (bounds : Fin 5 → ℤ × ℤ) (sample : ℤ → ℚ)
    (proc rem : List ℤ) (θ0 : ℤ) (s : Fin 5) (st st2 : SweepState)
    (hInv : SweepInv bounds sample proc (θ0 :: rem) st s)
    (h999 : st2.minDist s ≤ 999)
    (hmin2 : ∀ θ ∈ proc ++ [θ0], sectorIndex bounds θ = some s →
        0 < sample θ → st2.minDist s ≤ sample θ)
    (hatt2 : st2.minDist s < 999 →
        st2.angOfMin s ∈ proc ++ [θ0] ∧
        sectorIndex bounds (st2.angOfMin s) = some s ∧
        sample (st2.angOfMin s) = st2.minDist s ∧ 0 < st2.minDist s)
    (hu : st2.updated s = st.updated s)
    (hp : st2.published s = st.published s)
    (hc : st2.pubCount s = st.pubCount s) :
    SweepInv bounds sample (proc ++ [θ0]) rem st2 s := by
  obtain ⟨_, _, _, hclear, hset⟩ := hInv
  refine ⟨h999, hmin2, hatt2, ?_, ?_⟩
  · intro hu2
    rw [hu] at hu2
    obtain ⟨hc0, hp0⟩ := hclear hu2
    exact ⟨by rw [hc, hc0], by rw [hp, hp0]⟩
  · intro hu2
    rw [hu] at hu2
    obtain ⟨hc1, ⟨d, a, hpub, hain, hasec, hasamp, hdpos, hdmin⟩, hrem⟩ :=
      hset hu2
    refine ⟨by rw [hc, hc1], ⟨d, a, by rw [hp, hpub],
      List.mem_append.mpr (Or.inl hain), hasec, hasamp, hdpos, ?_⟩, ?_⟩
    · intro θ hθ hsec hpos
      rcases List.mem_append.mp hθ with hθ | hθ
      · exact hdmin θ hθ hsec hpos
      · simp only [List.mem_singleton] at hθ
        subst hθ
        exact absurd hsec (hrem _ (List.mem_cons_self _ rem))
    · intro θ hθ
      exact hrem θ (List.mem_cons_of_mem θ0 hθ)

/-- Every element of a step-chained list is at least one step past its
starting point. -/
theorem chain_ge (stepSize : ℤ) (hs : 1 ≤ stepSize) :
    ∀ (l : List ℤ) (a : ℤ),
      List.Chain (fun x y => y = x + stepSize) a l →
      ∀ b ∈ l, a + stepSize ≤ b := by
  intro l
  induction l with
  | nil => intro a _ b hb; simp at hb
  | cons c l ih =>
      intro a hch b hb
      rw [List.chain_cons] at hch
      obtain ⟨hac, hcl⟩ := hch
      rcases List.mem_cons.mp hb with rfl | hb
      · omega
      · have := ih c hcl b hb
        omega

/-- One iteration of the forward sweep body preserves the sweep
invariant, consuming the head of the remaining angle list. -/
theorem sweepInv_step (bounds : Fin 5 → ℤ × ℤ) (sample : ℤ → ℚ)
    (lockOk : ℤ → Bool) (stepSize : ℤ) (hs : 1 ≤ stepSize)
    (proc rem : List ℤ) (θ0 : ℤ) (st : SweepState) (s : Fin 5)
    (hgap : ∀ θ ∈ rem, θ0 + stepSize ≤ θ)
    (hInv : SweepInv bounds sample proc (θ0 :: rem) st s) :
    SweepInv bounds sample (proc ++ [θ0]) rem
      (sweepStep bounds sample lockOk stepSize st θ0) s := by
  obtain ⟨h999, hmin, hatt, hclear, hset⟩ := hInv
  obtain ⟨h1999, h1min, h1att⟩ :=
    minUpdate_minInv bounds sample st θ0 s proc h999 hmin hatt
  have h1upd := minUpdate_updated bounds sample st θ0
  have h1pub := minUpdate_published bounds sample st θ0
  have h1cnt := minUpdate_pubCount bounds sample st θ0
  show SweepInv bounds sample (proc ++ [θ0]) rem
    (publishUpdate bounds lockOk stepSize (minUpdate bounds sample st θ0)
      θ0) s
  unfold publishUpdate
  cases hcs : completedSector bounds
      (minUpdate bounds sample st θ0).updated θ0 stepSize with
  | none =>
      exact sweepInv_extend bounds sample proc rem θ0 s st _
        ⟨h999, hmin, hatt, hclear, hset⟩ h1999 h1min h1att
        (by rw [h1upd]) (by rw [h1pub]) (by rw [h1cnt])
  | some s0 =>
      dsimp only
      obtain ⟨hexit, hupd0⟩ :=
        completedSector_spec bounds _ θ0 stepSize s0 hcs
      split_ifs with hg hl
      · by_cases hss : s0 = s
        · subst hss
          have hstupd : st.updated s0 = false := by rw [← h1upd]; exact hupd0
          obtain ⟨hc0, hp0⟩ := hclear hstupd
          refine ⟨by simpa using h1999, by simpa using h1min,
            by simpa using h1att, ?_, ?_⟩
          · dsimp only
            rw [Function.update_same]
            intro hfalse
            exact absurd hfalse (by simp)
          · intro _
            obtain ⟨hain, hasec, hasamp, hdpos⟩ := h1att hg
            refine ⟨?_, ⟨(minUpdate bounds sample st θ0).minDist s0,
              (minUpdate bounds sample st θ0).angOfMin s0, ?_, hain, hasec,
              hasamp, hdpos, by simpa using h1min⟩, ?_⟩
            · dsimp only
              rw [Function.update_same, h1cnt, hc0]
            · dsimp only
              rw [Function.update_same]
            · intro θ hθ hsec
              have hθge := hgap θ hθ
              have hθle := sectorIndex_le_max bounds θ s0 hsec
              omega
        · have hne : s ≠ s0 := fun h => hss h.symm
          refine sweepInv_extend bounds sample proc rem θ0 s st _
            ⟨h999, hmin, hatt, hclear, hset⟩ (by simpa using h1999)
            (by simpa using h1min) (by simpa using h1att) ?_ ?_ ?_ <;>
            simp only [Function.update_noteq hne] <;>
            first
              | rw [h1upd]
              | rw [h1pub]
              | rw [h1cnt]
      · exact sweepInv_extend bounds sample proc rem θ0 s st _
          ⟨h999, hmin, hatt, hclear, hset⟩ h1999 h1min h1att
          (by rw [h1upd]) (by rw [h1pub]) (by rw [h1cnt])
      · exact sweepInv_extend bounds sample proc rem θ0 s st _
          ⟨h999, hmin, hatt, hclear, hset⟩ h1999 h1min h1att
          (by rw [h1upd]) (by rw [h1pub]) (by rw [h1cnt])

theorem angleSeqAux_head (stepSize maxA : ℤ) (n : ℕ) (a : ℤ) :
    angleSeqAux stepSize maxA n a = [] ∨
    ∃ l, angleSeqAux stepSize maxA n a = a :: l := by
  cases n with
  | zero => exact Or.inl rfl
  | succ n =>
      unfold angleSeqAux
      split_ifs
      · exact Or.inr ⟨_, rfl⟩
      · exact Or.inl rfl

/-- The forward pass's angle sequence advances by exactly `stepSize` at
each element. -/
theorem angleSeqAux_chain (stepSize maxA : ℤ) :
    ∀ (n : ℕ) (a : ℤ),
      List.Chain' (fun x y => y = x + stepSize)
        (angleSeqAux stepSize maxA n a) := by
  intro n
  induction n with
  | zero => intro a; simp [angleSeqAux]
  | succ n ih =>
      intro a
      unfold angleSeqAux
      split_ifs
      · rcases angleSeqAux_head stepSize maxA n (a + stepSize) with h | ⟨l, h⟩
        · rw [h]
          simp
        · rw [h, List.chain'_cons]
          exact ⟨rfl, by rw [← h]; exact ih (a + stepSize)⟩
      · simp

theorem angleSeq_chain (minA maxA stepSize : ℤ) :
    List.Chain' (fun x y => y = x + stepSize)
      (angleSeq minA maxA stepSize) :=
  angleSeqAux_chain stepSize maxA _ minA

/-- The sweep invariant holds at the start of a pass, before any angle is
processed. -/
theorem sweepInv_initial (bounds : Fin 5 → ℤ × ℤ) (sample : ℤ → ℚ)
    (angles : List ℤ) (s : Fin 5) :
    SweepInv bounds sample [] angles (initialSweepState bounds) s := by
  refine ⟨by norm_num [initialSweepState], ?_, ?_, fun _ => ⟨rfl, rfl⟩, ?_⟩
  · intro θ hθ
    simp at hθ
  · intro h
    norm_num [initialSweepState] at h
  · intro h
    simp [initialSweepState] at h

/-- Folding the sweep over a step-chained angle list preserves the
invariant all the way to the end of the pass. -/
theorem sweepInv_run (bounds : Fin 5 → ℤ × ℤ) (sample : ℤ → ℚ)
    (lockOk : ℤ → Bool) (stepSize : ℤ) (hs : 1 ≤ stepSize) (s : Fin 5) :
    ∀ (l proc : List ℤ) (st : SweepState),
      List.Chain' (fun x y => y = x + stepSize) l →
      SweepInv bounds sample proc l st s →
      SweepInv bounds sample (proc ++ l) []
        (sweepRun bounds sample lockOk stepSize st l) s := by
  intro l
  induction l with
  | nil =>
      intro proc st _ hInv
      simpa using hInv
  | cons θ0 l ih =>
      intro proc st hch hInv
      have hch' : List.Chain (fun x y => y = x + stepSize) θ0 l := hch
      have hgap : ∀ θ ∈ l, θ0 + stepSize ≤ θ :=
        chain_ge stepSize hs l θ0 hch'
      have hstep := sweepInv_step bounds sample lockOk stepSize hs proc l θ0
        st s hgap hInv
      have hres := ih (proc ++ [θ0]) _ (List.Chain'.tail hch) hstep
      simpa [List.append_assoc] using hres

/-- **C7.** Over one forward scan pass: each sector is published at most
once; a sector whose shared slot is not written this pass (no publish
event) preserves the previously published value; and whenever a sector's
slot is published with `(d, a)`, the angle `a` belongs to the pass, lies
in that sector, sampled exactly `d` with `d` valid (positive), and `d` is
a minimum over all valid samples of the pass falling in that sector — so
for two valid distances `d1 < d2` sampled in the same sector, the
published minimum is `d1`'s value at `d1`'s angle, never `d2`'s. -/
theorem sweep_publish_correct (bounds : Fin 5 → ℤ × ℤ) (sample : ℤ → ℚ)
    (lockOk : ℤ → Bool) (minA maxA stepSize : ℤ) (hs : 1 ≤ stepSize)
    (s : Fin 5) :
    (sweepRun bounds sample lockOk stepSize (initialSweepState bounds)
        (angleSeq minA maxA stepSize)).pubCount s ≤ 1 ∧
    ((sweepRun bounds sample lockOk stepSize (initialSweepState bounds)
        (angleSeq minA maxA stepSize)).published s = none →
      (sweepRun bounds sample lockOk stepSize (initialSweepState bounds)
        (angleSeq minA maxA stepSize)).pubCount s = 0) ∧
    ∀ d a,
      (sweepRun bounds sample lockOk stepSize (initialSweepState bounds)
        (angleSeq minA maxA stepSize)).published s = some (d, a) →
      a ∈ angleSeq minA maxA stepSize ∧ sectorIndex bounds a = some s ∧
      sample a = d ∧ 0 < d ∧
      ∀ θ ∈ angleSeq minA maxA stepSize, sectorIndex bounds θ = some s →
        0 < sample θ → d ≤ sample θ := by
  have hInv := sweepInv_run bounds sample lockOk stepSize hs s
    (angleSeq minA maxA stepSize) [] (initialSweepState bounds)
    (angleSeq_chain minA maxA stepSize)
    (sweepInv_initial bounds sample (angleSeq minA maxA stepSize) s)
  rw [List.nil_append] at hInv
  obtain ⟨_, _, _, hclear, hset⟩ := hInv
  refine ⟨?_, ?_, ?_⟩
  · cases hupd : (sweepRun bounds sample lockOk stepSize
        (initialSweepState bounds) (angleSeq minA maxA stepSize)).updated s
    · exact le_of_eq_of_le (hclear hupd).1 (by norm_num)
    · exact le_of_eq (hset hupd).1
  · intro hnone
    cases hupd : (sweepRun bounds sample lockOk stepSize
        (initialSweepState bounds) (angleSeq minA maxA stepSize)).updated s
    · exact (hclear hupd).1
    · obtain ⟨_, ⟨d, a, hpub, _⟩, _⟩ := hset hupd
      rw [hnone] at hpub
      exact absurd hpub (by simp)
  · intro d a hpub
    cases hupd : (sweepRun bounds sample lockOk stepSize
        (initialSweepState bounds) (angleSeq minA maxA stepSize)).updated s
    · rw [(hclear hupd).2] at hpub
      exact absurd hpub (by simp)
    · obtain ⟨_, ⟨d', a', hpub', hain, hasec, hasamp, hdpos, hdmin⟩, _⟩ :=
        hset hupd
      rw [hpub'] at hpub
      injection hpub with hpub
      injection hpub with hd ha
      subst hd
      subst ha
      exact ⟨hain, hasec, hasamp, hdpos, hdmin⟩

/-- Witness for C7 at the concrete sweep configuration of the sources:
sector bounds from the `tof_sensor.cpp` comments, arc 5°-175°, step 5°,
constant sample `100`, lock always available. -/
theorem sweep_publish_correct_witness :
    (1 : ℤ) ≤ 5 ∧
    (sweepRun sectorBoundsDefault (fun _ => 100) (fun _ => true) 5
        (initialSweepState sectorBoundsDefault)
        (angleSeq 5 175 5)).pubCount 0 ≤ 1 :=
  ⟨by norm_num,
   (sweep_publish_correct sectorBoundsDefault (fun _ => 100) (fun _ => true)
      5 175 5 (by norm_num) 0).1⟩

end ME410
